import Mathlib

/-
Verification development for the qa-kit change-review pipeline (src/src/index.ts).
The TypeScript source is shallowly embedded: pure logic becomes Lean functions,
JS numbers that carry counts or JSON numeric literals are modelled as Int / Rat,
fallible steps return Option / Except, and the two oracle transports (ranking and
adjudication) are injected as function parameters returning the raw reply text
(`none` models a transport failure that the source catches).
-/

namespace QAKit

/- ## Ignore matcher (src/index.ts lines 131-138 and 153-158)

The source converts each glob pattern to a JS regex by three successive global
string replacements and then performs an anchored test:

  pattern.replace(/\./g, "\\.").replace(/\*\*/g, ".*").replace(/\*/g, "[^/]*")
  new RegExp(`^` + regexPattern + `$`).test(filePath)

The three replacements are embedded one-for-one; the resulting regex source is
then parsed into the token fragment these replacements can emit (escaped
literals, `.`, and the class-star `[^/]*`) and matched by `rmatch`.  Note the
second replacement rewrites `**` to `.*` and the third then rewrites the `*` of
that very replacement, so `**` effectively compiles to `.[^/]*`. -/

/-- Embeds `.replace(/\./g, "\\.")`. -/
def escapeDots : List Char → List Char
  | [] => []
  | '.' :: rest => '\\' :: '.' :: escapeDots rest
  | c :: rest => c :: escapeDots rest

/-- Embeds `.replace(/\*\*/g, ".*")` (left-to-right, non-overlapping). -/
def replaceDStar : List Char → List Char
  | '*' :: '*' :: rest => '.' :: '*' :: replaceDStar rest
  | c :: rest => c :: replaceDStar rest
  | [] => []

/-- Embeds `.replace(/\*/g, "[^/]*")`; the replacement text is not rescanned. -/
def replaceStar : List Char → List Char
  | '*' :: rest => '[' :: '^' :: '/' :: ']' :: '*' :: replaceStar rest
  | c :: rest => c :: replaceStar rest
  | [] => []

/-- The regex source the code builds from a glob pattern. -/
def globRegexSrc (pattern : List Char) : List Char :=
  replaceStar (replaceDStar (escapeDots pattern))

/-- Token fragment of JS regexes that the three replacements can emit. -/
inductive RTok
  | lit (c : Char)
  | anyc
  | starNonSep
deriving DecidableEq

/-- Characters that are special in a JS regex; a pattern producing one of these
outside the shapes handled below falls outside the embedded fragment. -/
def regexSpecial (c : Char) : Bool :=
  c = '(' || c = ')' || c = '[' || c = ']' || c = '{' || c = '}' ||
  c = '+' || c = '?' || c = '|' || c = '^' || c = '$' || c = '*' || c = '\\'

/-- Parse the emitted regex source into tokens.  `\c` is a literal, `.` matches
any single non-line-terminator character, `[^/]*` is a run of non-separators. -/
def parseRegex : List Char → Option (List RTok)
  | [] => some []
  | '\\' :: c :: rest => (parseRegex rest).map (RTok.lit c :: ·)
  | '[' :: '^' :: '/' :: ']' :: '*' :: rest => (parseRegex rest).map (RTok.starNonSep :: ·)
  | '.' :: rest => (parseRegex rest).map (RTok.anyc :: ·)
  | c :: rest => if regexSpecial c then none else (parseRegex rest).map (RTok.lit c :: ·)

/-- JS `.` (no `s` flag) matches any character except the four line terminators. -/
def jsAnyChar (c : Char) : Bool :=
  !(c = '\n' || c = '\r' || c = '\u2028' || c = '\u2029')

/-- Anchored match of the token fragment against a path, with JS backtracking
semantics for the greedy `[^/]*`.  Fuel-indexed so it reduces definitionally;
every recursive call shrinks `ts.length + s.length`, so the fuel in `rmatch`
below is always sufficient. -/
def rmatchF : Nat → List RTok → List Char → Bool
  | 0, _, _ => false
  | _ + 1, [], [] => true
  | _ + 1, [], _ :: _ => false
  | fuel + 1, RTok.lit c :: ts, d :: ds => c = d && rmatchF fuel ts ds
  | _ + 1, RTok.lit _ :: _, [] => false
  | fuel + 1, RTok.anyc :: ts, d :: ds => jsAnyChar d && rmatchF fuel ts ds
  | _ + 1, RTok.anyc :: _, [] => false
  | fuel + 1, RTok.starNonSep :: ts, [] => rmatchF fuel ts []
  | fuel + 1, RTok.starNonSep :: ts, d :: ds =>
      rmatchF fuel ts (d :: ds) || (!(d = '/') && rmatchF fuel (RTok.starNonSep :: ts) ds)

def rmatch (ts : List RTok) (s : List Char) : Bool :=
  rmatchF (ts.length + s.length + 1) ts s

/-- One pattern's anchored test, as in `new RegExp("^" + p + "$").test(path)`.
For every pattern appearing in the repository the parse succeeds; the `none`
branch is unreachable there. -/
def testPattern (pattern path : String) : Bool :=
  match parseRegex (globRegexSrc pattern.toList) with
  | some toks => rmatch toks path.toList
  | none => false

/-- Embeds `ignorePatterns.some((pattern) => ... .test(filePath))`. -/
def shouldIgnore (ignorePatterns : List String) (filePath : String) : Bool :=
  ignorePatterns.any (fun pattern => testPattern pattern filePath)

/- ## Configuration (src/index.ts lines 21-27 and 54-64)

`loadConfig` reads `qa.json` and returns `{ ...defaultQAConfig, ...userConfig }`;
any read/parse failure falls back to the defaults.  A user file is modelled as a
record of optional recognized keys (`none` = key absent), and the missing or
unparsable file as `none`.  JS numbers are modelled as `Int`; no claim depends
on fractional config values. -/

structure QAConfig where
  contextLines : Int
  maxDiffLines : Int
  maxSnippetMatches : Int
  maxDiffsPerRun : Int
  ignoreFiles : List String
deriving DecidableEq

def defaultQAConfig : QAConfig :=
  { contextLines := 50
    maxDiffLines := 500
    maxSnippetMatches := 3
    maxDiffsPerRun := 3
    ignoreFiles := ["quality/**", "qa.json"] }

structure UserConfig where
  contextLines : Option Int := none
  maxDiffLines : Option Int := none
  maxSnippetMatches : Option Int := none
  maxDiffsPerRun : Option Int := none
  ignoreFiles : Option (List String) := none

/-- Embeds `loadConfig`: spread-merge of the user file over the defaults; a
missing or unparsable `qa.json` (`none`) yields the defaults. -/
def loadConfig (u : Option UserConfig) : QAConfig :=
  match u with
  | none => defaultQAConfig
  | some uc =>
    { contextLines := uc.contextLines.getD defaultQAConfig.contextLines
      maxDiffLines := uc.maxDiffLines.getD defaultQAConfig.maxDiffLines
      maxSnippetMatches := uc.maxSnippetMatches.getD defaultQAConfig.maxSnippetMatches
      maxDiffsPerRun := uc.maxDiffsPerRun.getD defaultQAConfig.maxDiffsPerRun
      ignoreFiles := uc.ignoreFiles.getD defaultQAConfig.ignoreFiles }

/-- The spec's Config invariant (spec.md section 3). -/
def configInvariant (c : QAConfig) : Prop :=
  0 < c.contextLines ∧ 0 < c.maxDiffLines ∧ 0 < c.maxSnippetMatches ∧
  0 < c.maxDiffsPerRun ∧ ∀ p ∈ c.ignoreFiles, p ≠ ""

instance (c : QAConfig) : Decidable (configInvariant c) := by
  unfold configInvariant; infer_instance

/- ## Verdict fold (src/index.ts lines 367-399)

The per-file verdict starts at "accepted" and is updated once per adjudicated
match, in order:

  if (analysis.status === "rejected") overallStatus = "rejected";
  else if (analysis.status === "warning" && overallStatus !== "rejected")
    overallStatus = "warning";

Statuses are kept as strings, exactly as the source compares them. -/

/-- One update of `overallStatus` by one adjudicated status. -/
def stepStatus (overall s : String) : String :=
  if s = "rejected" then "rejected"
  else if s = "warning" ∧ overall ≠ "rejected" then "warning"
  else overall

/-- The per-file verdict is the left fold of the adjudicated statuses, in
adjudication order, starting from "accepted". -/
def overallStatus (statuses : List String) : String :=
  statuses.foldl stepStatus "accepted"

/-- Severity order used to state monotonicity: accepted < warning < rejected. -/
def sevRank (s : String) : Nat :=
  if s = "rejected" then 2 else if s = "warning" then 1 else 0

/- ## JSON values and JSON.parse (used by both oracle-reply extractions)

`JSON.parse` is embedded as a fuel-indexed recursive-descent parser over
`List Char` following the JSON grammar: strict escapes, no trailing commas,
no leading zeros, and no trailing garbage after the top-level value.  Numbers
are modelled exactly as rationals.  Object duplicate keys keep the last
occurrence, as in JS. -/

inductive Json
  | null
  | bool (b : Bool)
  | num (q : Rat)
  | str (s : List Char)
  | arr (xs : List Json)
  | obj (kvs : List (List Char × Json))

/-- JSON insignificant whitespace. -/
def jsonWs (c : Char) : Bool :=
  c = ' ' || c = '\t' || c = '\n' || c = '\r'

def skipWs : List Char → List Char
  | [] => []
  | c :: rest => if jsonWs c then skipWs rest else c :: rest

def hexVal (c : Char) : Option Nat :=
  if '0' ≤ c ∧ c ≤ '9' then some (c.toNat - 48)
  else if 'a' ≤ c ∧ c ≤ 'f' then some (c.toNat - 87)
  else if 'A' ≤ c ∧ c ≤ 'F' then some (c.toNat - 55)
  else none

def unescape (c : Char) : Option Char :=
  if c = '"' then some '"'
  else if c = '\\' then some '\\'
  else if c = '/' then some '/'
  else if c = 'b' then some '\x08'
  else if c = 'f' then some '\x0c'
  else if c = 'n' then some '\n'
  else if c = 'r' then some '\r'
  else if c = 't' then some '\t'
  else none

/-- Parse a JSON string body after the opening quote; returns the decoded
characters and the input after the closing quote.  A `\u` escape decodes to
the character of its code point (JS UTF-16 surrogate pairing is not modelled;
no claim involves astral-plane snippet names). -/
def parseStringBody : Nat → List Char → Option (List Char × List Char)
  | 0, _ => none
  | _ + 1, [] => none
  | fuel + 1, c :: rest =>
    if c = '"' then some ([], rest)
    else if c = '\\' then
      match rest with
      | [] => none
      | e :: rest2 =>
        if e = 'u' then
          match rest2 with
          | a :: b :: c2 :: d :: rest3 =>
            match hexVal a, hexVal b, hexVal c2, hexVal d with
            | some ha, some hb, some hc, some hd =>
              (parseStringBody fuel rest3).map
                (fun p => (Char.ofNat (((ha * 16 + hb) * 16 + hc) * 16 + hd) :: p.1, p.2))
            | _, _, _, _ => none
          | _ => none
        else
          match unescape e with
          | none => none
          | some ch => (parseStringBody fuel rest2).map (fun p => (ch :: p.1, p.2))
    else if c.toNat < 32 then none
    else (parseStringBody fuel rest).map (fun p => (c :: p.1, p.2))

def isDigit (c : Char) : Bool := '0' ≤ c && c ≤ '9'

/-- Longest digit run with its value. -/
def takeDigits : List Char → Nat → Nat → (Nat × Nat × List Char)
  | [], acc, count => (acc, count, [])
  | c :: rest, acc, count =>
    if isDigit c then takeDigits rest (acc * 10 + (c.toNat - 48)) (count + 1)
    else (acc, count, c :: rest)

/-- JSON number grammar: `-? (0 | [1-9][0-9]*) (. [0-9]+)? ([eE][+-]?[0-9]+)?`. -/
def parseNumber (s : List Char) : Option (Rat × List Char) :=
  let (neg, s1) :=
    match s with
    | '-' :: rest => (true, rest)
    | _ => (false, s)
  match s1 with
  | [] => none
  | c :: rest =>
    if !isDigit c then none
    else
      let (intPart, s2) :=
        if c = '0' then ((0 : Nat), rest)
        else
          let (v, _, r) := takeDigits rest (c.toNat - 48) 1
          (v, r)
      let fracStep : Option (Rat × List Char) :=
        match s2 with
        | '.' :: d :: rest2 =>
          if isDigit d then
            let (fv, fc, r) := takeDigits rest2 (d.toNat - 48) 1
            some ((intPart : Rat) + (fv : Rat) / ((10 : Rat) ^ fc), r)
          else none
        | _ => some ((intPart : Rat), s2)
      match fracStep with
      | none => none
      | some (base, s3) =>
        let expStep : Option (Rat × List Char) :=
          match s3 with
          | 'e' :: rest3 => some (0, rest3)
          | 'E' :: rest3 => some (0, rest3)
          | _ => none
        match expStep with
        | none => some ((if neg then -base else base), s3)
        | some (_, rest3) =>
          let (eneg, rest4) :=
            match rest3 with
            | '-' :: r => (true, r)
            | '+' :: r => (false, r)
            | _ => (false, rest3)
          match rest4 with
          | [] => none
          | e0 :: rest5 =>
            if !isDigit e0 then none
            else
              let (ev, _, r) := takeDigits rest5 (e0.toNat - 48) 1
              let scaled := if eneg then base / ((10 : Rat) ^ ev) else base * ((10 : Rat) ^ ev)
              some ((if neg then -scaled else scaled), r)

/-- Rest of the keyword `null` after its leading `n`. -/
def parseNullTail : List Char → Option (Json × List Char)
  | 'u' :: 'l' :: 'l' :: r2 => some (Json.null, r2)
  | _ => none

/-- Rest of the keyword `true` after its leading `t`. -/
def parseTrueTail : List Char → Option (Json × List Char)
  | 'r' :: 'u' :: 'e' :: r2 => some (Json.bool true, r2)
  | _ => none

/-- Rest of the keyword `false` after its leading `f`. -/
def parseFalseTail : List Char → Option (Json × List Char)
  | 'a' :: 'l' :: 's' :: 'e' :: r2 => some (Json.bool false, r2)
  | _ => none

mutual

/-- Parse one JSON value; callers have already skipped leading whitespace.
Dispatch is on the head character, as in the JSON grammar; anything that is
not a string, array, object or keyword start is handed to the number parser
(which rejects non-numbers). -/
def parseValue : Nat → List Char → Option (Json × List Char)
  | 0, _ => none
  | _ + 1, [] => none
  | fuel + 1, c :: rest =>
    if c = '"' then (parseStringBody fuel rest).map (fun p => (Json.str p.1, p.2))
    else if c = '[' then
      (match skipWs rest with
       | ']' :: r2 => some (Json.arr [], r2)
       | s2 => (parseArrayTail fuel s2).map (fun p => (Json.arr p.1, p.2)))
    else if c = '{' then
      (match skipWs rest with
       | '}' :: r2 => some (Json.obj [], r2)
       | s2 => (parseObjTail fuel s2).map (fun p => (Json.obj p.1, p.2)))
    else if c = 'n' then parseNullTail rest
    else if c = 't' then parseTrueTail rest
    else if c = 'f' then parseFalseTail rest
    else (parseNumber (c :: rest)).map (fun p => (Json.num p.1, p.2))

/-- One or more array elements followed by `]`. -/
def parseArrayTail : Nat → List Char → Option (List Json × List Char)
  | 0, _ => none
  | fuel + 1, s =>
    match parseValue fuel s with
    | none => none
    | some (v, r) =>
      match skipWs r with
      | ',' :: r2 =>
        (parseArrayTail fuel (skipWs r2)).map (fun p => (v :: p.1, p.2))
      | ']' :: r2 => some ([v], r2)
      | _ => none

/-- One or more `"key": value` members followed by `}`. -/
def parseObjTail : Nat → List Char → Option (List (List Char × Json) × List Char)
  | 0, _ => none
  | fuel + 1, s =>
    match s with
    | '"' :: rest =>
      (match parseStringBody fuel rest with
       | none => none
       | some (k, r1) =>
         match skipWs r1 with
         | ':' :: r2 =>
           (match parseValue fuel (skipWs r2) with
            | none => none
            | some (v, r3) =>
              match skipWs r3 with
              | ',' :: r4 =>
                (parseObjTail fuel (skipWs r4)).map (fun p => ((k, v) :: p.1, p.2))
              | '}' :: r4 => some ([(k, v)], r4)
              | _ => none)
         | _ => none)
    | _ => none

end

/-- Embeds `JSON.parse`: one value, optionally surrounded by whitespace, and
nothing else.  The fuel `2 * length + 2` suffices: along any call chain at
least one input character is consumed for every two fuel units spent. -/
def jsonParse (s : List Char) : Option Json :=
  match parseValue (2 * s.length + 2) (skipWs s) with
  | some jr => if skipWs jr.2 = [] then some jr.1 else none
  | none => none

/- ## Oracle reply extraction (src/index.ts lines 231-241 and 290-306)

`content.match(/\[[\s\S]*\]/)` (and its `{`/`}` twin) is a greedy anchored-free
search: the match starts at the first opening bracket that has some closing
bracket after it and extends to the last closing bracket of the whole string.
`jsGreedySpan` embeds exactly that matched substring. -/

/-- The input through its last occurrence of `t` (callers guarantee `t` occurs). -/
def takeThroughLast (t : Char) : List Char → List Char
  | [] => []
  | c :: rest =>
    if t ∈ rest then c :: takeThroughLast t rest
    else if c = t then [t]
    else []

/-- The substring matched by the JS regex `o[\s\S]*t` (`o`, `t` bracket chars):
from the first `o` followed by some `t`, through the last `t`. -/
def jsGreedySpan (o t : Char) : List Char → Option (List Char)
  | [] => none
  | c :: rest =>
    if c = o ∧ t ∈ rest then some (c :: takeThroughLast t rest)
    else jsGreedySpan o t rest

/- ## JS numeric coercion for the threshold test (src/index.ts line 377)

The source evaluates `match.relevanceScore < 80` on whatever `JSON.parse`
produced — the field need not be a number.  JS applies ToNumber to the value
(`undefined` gives NaN, and any comparison with NaN is false), so the skip
condition must be embedded for every JSON value that can sit in the field.
Numeric values are exact rationals throughout, consistent with the rest of
the embedding (double rounding is not modelled). -/

/-- Result of JS ToNumber on a parsed JSON value: NaN, an infinity (from
string literals such as "Infinity"), or a finite number. -/
inductive JsNumVal
  | nan
  | posInf
  | negInf
  | fin (q : Rat)

/-- JS whitespace accepted around a string numeric literal (the common set;
exotic Unicode space separators do not appear in any claim). -/
def jsWsChar (c : Char) : Bool :=
  c = ' ' || c = '\t' || c = '\n' || c = '\r' || c = '\x0b' || c = '\x0c' ||
  c = '\u00a0' || c = '\u2028' || c = '\u2029' || c = '\ufeff'

def trimJs (s : List Char) : List Char :=
  ((s.dropWhile jsWsChar).reverse.dropWhile jsWsChar).reverse

/-- Exponent tail `[eE][+-]?digits` of a string numeric literal; the whole
rest of the string must be consumed. -/
def expDigits (r : List Char) (base : Rat) (neg : Bool) : JsNumVal :=
  let (eneg, r2) :=
    match r with
    | '-' :: rr => (true, rr)
    | '+' :: rr => (false, rr)
    | _ => (false, r)
  let (ev, ec, r3) := takeDigits r2 0 0
  if ec = 0 ∨ r3 ≠ [] then JsNumVal.nan
  else
    let m := if eneg then base / ((10 : Rat) ^ ev) else base * ((10 : Rat) ^ ev)
    JsNumVal.fin (if neg then -m else m)

def parseExpTail (r : List Char) (base : Rat) (neg : Bool) : JsNumVal :=
  match r with
  | [] => JsNumVal.fin (if neg then -base else base)
  | 'e' :: r2 => expDigits r2 base neg
  | 'E' :: r2 => expDigits r2 base neg
  | _ => JsNumVal.nan

/-- `StrUnsignedDecimalLiteral`: `Infinity`, `digits [. digits] [exp]` or
`. digits [exp]`; leading zeros are allowed, unlike in JSON. -/
def parseUnsignedDec (s : List Char) (neg : Bool) : JsNumVal :=
  if s = "Infinity".toList then (if neg then JsNumVal.negInf else JsNumVal.posInf)
  else
    let (iv, ic, r1) := takeDigits s 0 0
    match r1 with
    | '.' :: r2 =>
      let (fv, fc, r3) := takeDigits r2 0 0
      if ic = 0 ∧ fc = 0 then JsNumVal.nan
      else parseExpTail r3 ((iv : Rat) + (fv : Rat) / ((10 : Rat) ^ fc)) neg
    | _ =>
      if ic = 0 then JsNumVal.nan
      else parseExpTail r1 (iv : Rat) neg

def octVal (c : Char) : Option Nat :=
  if '0' ≤ c ∧ c ≤ '7' then some (c.toNat - 48) else none

def binVal (c : Char) : Option Nat :=
  if c = '0' then some 0 else if c = '1' then some 1 else none

/-- Value of a nonempty all-valid digit string in the given radix. -/
def radixVal (radix : Nat) (dv : Char → Option Nat) : List Char → Option Nat
  | [] => none
  | s => s.foldl (fun acc c => acc.bind (fun v => (dv c).map (fun d => v * radix + d))) (some 0)

/-- JS ToNumber on a string (`StringNumericLiteral`): trimmed; empty gives 0;
hex/octal/binary integer literals are unsigned; otherwise an optionally signed
decimal literal or `Infinity`; anything else is NaN. -/
def jsStringToNum (s : List Char) : JsNumVal :=
  match trimJs s with
  | [] => JsNumVal.fin 0
  | '0' :: c :: r =>
    if c = 'x' ∨ c = 'X' then
      (match radixVal 16 hexVal r with
       | some v => JsNumVal.fin v
       | none => JsNumVal.nan)
    else if c = 'o' ∨ c = 'O' then
      (match radixVal 8 octVal r with
       | some v => JsNumVal.fin v
       | none => JsNumVal.nan)
    else if c = 'b' ∨ c = 'B' then
      (match radixVal 2 binVal r with
       | some v => JsNumVal.fin v
       | none => JsNumVal.nan)
    else parseUnsignedDec ('0' :: c :: r) false
  | '+' :: r => parseUnsignedDec r false
  | '-' :: r => parseUnsignedDec r true
  | t => parseUnsignedDec t false

/-- ToNumber of the string an array element contributes to `Array.prototype.
toString` (`null` joins as the empty string, booleans as `true`/`false`,
plain objects as `[object Object]`, numbers round-trip to themselves, and a
nested array is its own join).  A join of two or more elements always contains
a comma and is therefore NaN, so only empty and singleton arrays are numeric. -/
def jsSingletonToNum : Json → JsNumVal
  | Json.num q => JsNumVal.fin q
  | Json.str s => jsStringToNum s
  | Json.null => JsNumVal.fin 0
  | Json.bool _ => JsNumVal.nan
  | Json.obj _ => JsNumVal.nan
  | Json.arr [] => JsNumVal.fin 0
  | Json.arr [x] => jsSingletonToNum x
  | Json.arr (_ :: _ :: _) => JsNumVal.nan

/-- JS ToNumber of the value found in the `relevanceScore` position; `none`
is a missing field, i.e. `undefined`, which is NaN. -/
def jsToNumVal : Option Json → JsNumVal
  | none => JsNumVal.nan
  | some (Json.num q) => JsNumVal.fin q
  | some Json.null => JsNumVal.fin 0
  | some (Json.bool b) => JsNumVal.fin (if b then 1 else 0)
  | some (Json.str s) => jsStringToNum s
  | some (Json.obj _) => JsNumVal.nan
  | some (Json.arr []) => JsNumVal.fin 0
  | some (Json.arr [x]) => jsSingletonToNum x
  | some (Json.arr (_ :: _ :: _)) => JsNumVal.nan

/-- Truth value of the source's skip test `match.relevanceScore < 80` for the
raw field value: false whenever ToNumber gives NaN (in particular for a
missing field), true for -Infinity, and the numeric comparison otherwise. -/
def scoreBelow80 (v : Option Json) : Bool :=
  match jsToNumVal v with
  | JsNumVal.nan => false
  | JsNumVal.posInf => false
  | JsNumVal.negInf => true
  | JsNumVal.fin q => q < 80

structure Snippet where
  name : String
  content : String
deriving DecidableEq

/-- One non-`null` element of the parsed ranking array, reduced to the two
property reads the loop performs on it: the string value of `.snippetName`
when there is one (`none` covers a missing or non-string field, which strict
equality `===` can never match against a snippet's string name), and the raw
`.relevanceScore` field (`none` = absent).  Non-object elements (numbers,
strings, booleans, arrays) read both properties as `undefined`. -/
structure SnippetMatch where
  snippetName : Option String
  relevanceScore : Option Json

/-- Adjudication reply shape (the TS interface fields `commentary`, `status`). -/
structure Analysis where
  commentary : String
  status : String
deriving DecidableEq

/-- JS object access keeps the last duplicate key. -/
def lookupLast (k : List Char) (kvs : List (List Char × Json)) : Option Json :=
  ((kvs.filter (fun kv => kv.1 = k)).getLast?).map (fun kv => kv.2)

def asStr : Json → Option (List Char)
  | Json.str s => some s
  | _ => none

/-- Decode one ranking-array element to the two property reads the loop
performs on it.  The source casts `JSON.parse`'s result to `SnippetMatch[]`
without validation, so every element reaches the loop: an object contributes
its (string) `snippetName` and raw `relevanceScore`; a number, string,
boolean or array element reads both properties as `undefined`; a `null`
element (`none` here) makes the very first property access throw a
`TypeError`, aborting the run — unless the corpus is empty, in which case
`find` never runs its callback. -/
def decodeMatch : Json → Option SnippetMatch
  | Json.null => none
  | Json.obj kvs =>
    some ⟨((lookupLast "snippetName".toList kvs).bind asStr).map String.mk,
          lookupLast "relevanceScore".toList kvs⟩
  | _ => some ⟨none, none⟩

/-- One entry per array element, in order — nothing is dropped, exactly as
the source iterates the parsed array. -/
def decodeMatches : Json → List (Option SnippetMatch)
  | Json.arr xs => xs.map decodeMatch
  | _ => []

/-- Decode the adjudication object into the TS `{commentary, status}` shape.
A missing or non-string field is JS `undefined`; the string "undefined" is
behaviourally faithful (it matches none of the three status comparisons). -/
def decodeAnalysis : Json → Analysis
  | Json.obj kvs =>
    ⟨String.mk (((lookupLast "commentary".toList kvs).bind asStr).getD "undefined".toList),
     String.mk (((lookupLast "status".toList kvs).bind asStr).getD "undefined".toList)⟩
  | _ => ⟨"undefined", "undefined"⟩

/-- Ranking-reply extraction (lines 231-237): greedy `[` .. `]` span, then
`JSON.parse`; a missing span returns `[]`, and a parse failure is caught by
the surrounding `try` and also returns `[]`. -/
def extractMatches (content : List Char) : List (Option SnippetMatch) :=
  match jsGreedySpan '[' ']' content with
  | none => []
  | some span =>
    match jsonParse span with
    | none => []
    | some j => decodeMatches j

/-- Adjudication-reply extraction (lines 290-306): greedy `{` .. `}` span, then
`JSON.parse`; a missing span yields the "Unable to parse analysis" warning and
a parse failure is caught and yields the "Error during analysis" warning (the
source appends the JS error text, which is not modelled). -/
def extractAnalysis (content : List Char) : Analysis :=
  match jsGreedySpan '{' '}' content with
  | none => ⟨"Unable to parse analysis", "warning"⟩
  | some span =>
    match jsonParse span with
    | none => ⟨"Error during analysis", "warning"⟩
    | some j => decodeAnalysis j

/- ## The two oracle-calling functions (src/index.ts lines 190-242 and 245-307)

Each function first reads `process.env.OPENAI_API_KEY` and throws if it is
absent (the throw sits before the `try`, so it propagates).  The transport and
the oracle are injected as the reply text; `none` is a transport failure, which
the source catches inside the `try`. -/

/-- Result of a transport-or-extraction round for the ranking call. -/
def rankedOfReply : Option String → List (Option SnippetMatch)
  | none => []
  | some content => extractMatches content.toList

/-- Result of a transport-or-extraction round for the adjudication call. -/
def analysisOfReply : Option String → Analysis
  | none => ⟨"Error during analysis", "warning"⟩
  | some content => extractAnalysis content.toList

/-- Embeds `matchSnippetsToDiff`.  The snippet list and `maxMatches` only feed
the prompt text, which is part of the injected reply function's input; they do
not otherwise affect control flow, so they are not parameters here. -/
def matchSnippetsToDiff (apiKey : Option String) (reply : Option String) :
    Except String (List (Option SnippetMatch)) :=
  match apiKey with
  | none => Except.error "OPENAI_API_KEY environment variable not set"
  | some _ => Except.ok (rankedOfReply reply)

/-- Embeds `analyzeMatch`. -/
def analyzeMatch (apiKey : Option String) (reply : Option String) :
    Except String Analysis :=
  match apiKey with
  | none => Except.error "OPENAI_API_KEY environment variable not set"
  | some _ => Except.ok (analysisOfReply reply)

/- ## The per-diff match loop and the run (src/index.ts main, lines 309-461) -/

structure DiffInfo where
  file : String
  diff : String
deriving DecidableEq

/-- The TS `QAResult`; the source field `matches` is a reserved word in Lean
and is called `fileMatches` here. -/
structure QAResult where
  file : String
  status : String
  fileMatches : List (String × String)
deriving DecidableEq

/-- One oracle invocation, recorded for the call-budget claims. -/
inductive OracleCall
  | rank (file : String)
  | adj (file : String) (snippetName : String)
deriving DecidableEq

/-- Output of the per-diff match loop: the retained `(snippetName, commentary)`
pairs, the adjudicated statuses in order (whose left fold is the source's
`overallStatus` variable), and the matches that triggered an adjudication
call. -/
structure ProcOut where
  results : List (String × String)
  statuses : List String
  calls : List SnippetMatch

/-- Embeds `snippets.find((s) => s.name === match.snippetName)`: with a
non-string `snippetName` (JS `undefined` here) the strict equality is false
for every snippet, so nothing resolves. -/
def findSnippet (snippets : List Snippet) (n : Option String) : Option Snippet :=
  match n with
  | none => none
  | some nm => snippets.find? (fun s => s.name = nm)

/-- Embeds the `for (const match of matches)` loop (lines 369-400): resolve the
snippet (skip silently if absent), skip if `relevanceScore < 80` is true under
JS coercion, otherwise adjudicate and record.  A `null` element throws a
`TypeError` when `find`'s callback reads `match.snippetName`, aborting the
run — except when the corpus is empty, since `find` on an empty array never
invokes its callback and yields `undefined`, which the `!snippet` guard then
skips. -/
def processMatches (adjudicate : Snippet → Analysis) (snippets : List Snippet) :
    List (Option SnippetMatch) → Except String ProcOut
  | [] => Except.ok ⟨[], [], []⟩
  | none :: rest =>
    if snippets.isEmpty then processMatches adjudicate snippets rest
    else Except.error "TypeError: Cannot read properties of null (reading 'snippetName')"
  | some m :: rest =>
    match findSnippet snippets m.snippetName with
    | none => processMatches adjudicate snippets rest
    | some snip =>
      if scoreBelow80 m.relevanceScore then processMatches adjudicate snippets rest
      else
        let a := adjudicate snip
        match processMatches adjudicate snippets rest with
        | Except.error e => Except.error e
        | Except.ok out =>
          Except.ok ⟨(snip.name, a.commentary) :: out.results,
                     a.status :: out.statuses, m :: out.calls⟩

/-- Embeds the truncation step (lines 347-355). -/
def truncateDiff (maxDiffLines : Nat) (d : DiffInfo) : DiffInfo :=
  let lines := d.diff.splitOn "\n"
  if lines.length > maxDiffLines then
    { d with diff := String.intercalate "\n" (lines.take maxDiffLines) ++ "\n... (truncated)" }
  else d

/-- The ranking result for one diff, as the run sees it (truncation happens
before the ranking call). -/
def rankedMatches (rankReply : DiffInfo → Option String) (maxDiffLines : Nat)
    (d : DiffInfo) : List (Option SnippetMatch) :=
  rankedOfReply (rankReply (truncateDiff maxDiffLines d))

/-- One iteration of the `for (const diff of diffsToProcess)` loop, with the
credential known to be present: truncate, one ranking call, then the match
loop with one adjudication call per retained match.  An adjudicated match
always has a resolved string name, so the `getD` default in the call label is
never used. -/
def runDiff (rankReply : DiffInfo → Option String)
    (adjReply : DiffInfo → Snippet → Option String)
    (snippets : List Snippet) (maxDiffLines : Nat) (d : DiffInfo) :
    Except String (QAResult × List OracleCall) :=
  match processMatches
      (fun snip => analysisOfReply (adjReply (truncateDiff maxDiffLines d) snip))
      snippets (rankedMatches rankReply maxDiffLines d) with
  | Except.error e => Except.error e
  | Except.ok out =>
    Except.ok (⟨(truncateDiff maxDiffLines d).file, overallStatus out.statuses, out.results⟩,
      OracleCall.rank (truncateDiff maxDiffLines d).file ::
        out.calls.map (fun m =>
          OracleCall.adj (truncateDiff maxDiffLines d).file (m.snippetName.getD "")))

def runDiffs (rankReply : DiffInfo → Option String)
    (adjReply : DiffInfo → Snippet → Option String)
    (snippets : List Snippet) (maxDiffLines : Nat) :
    List DiffInfo → Except String (List QAResult × List OracleCall)
  | [] => Except.ok ([], [])
  | d :: rest =>
    match runDiff rankReply adjReply snippets maxDiffLines d with
    | Except.error e => Except.error e
    | Except.ok rc =>
      match runDiffs rankReply adjReply snippets maxDiffLines rest with
      | Except.error e => Except.error e
      | Except.ok p => Except.ok (rc.1 :: p.1, rc.2 ++ p.2)

structure RunOutput where
  results : List QAResult
  calls : List OracleCall
deriving DecidableEq

/-- Embeds `main` from the corpus-load check onward (lines 323-456).  Loading
is external: the snippets, the extracted diffs and the resolved config counts
are inputs.  An empty corpus and an empty diff list return early with no oracle
call.  The diff slice `diffs.slice(0, maxDiffsPerRun)` is `List.take` (the
counts are taken as naturals; the claims do not exercise JS negative-index
slicing).  A missing credential throws at the first ranking call, i.e. exactly
when the sliced list is nonempty; any exception from the loop (the `null`
element `TypeError`) likewise aborts the whole run. -/
def processRun (apiKey : Option String) (rankReply : DiffInfo → Option String)
    (adjReply : DiffInfo → Snippet → Option String)
    (snippets : List Snippet) (diffs : List DiffInfo)
    (maxDiffLines maxDiffsPerRun : Nat) : Except String RunOutput :=
  if snippets.isEmpty then Except.ok ⟨[], []⟩
  else if diffs.isEmpty then Except.ok ⟨[], []⟩
  else
    let diffsToProcess := diffs.take maxDiffsPerRun
    match apiKey with
    | none =>
      if diffsToProcess.isEmpty then Except.ok ⟨[], []⟩
      else Except.error "OPENAI_API_KEY environment variable not set"
    | some _ =>
      match runDiffs rankReply adjReply snippets maxDiffLines diffsToProcess with
      | Except.error e => Except.error e
      | Except.ok p => Except.ok ⟨p.1, p.2⟩

/- ## Summary counts and exit code (src/index.ts lines 414-461)

The summary loop counts `accepted`, then `warning`, and everything else in the
`rejected` tally; the process exits 1 when `rejectedCount > 0` or when `main`
rejects (the `main().catch` handler), and 0 otherwise. -/

def acceptedCount (rs : List QAResult) : Nat :=
  rs.countP (fun r => r.status = "accepted")

def warningCount (rs : List QAResult) : Nat :=
  rs.countP (fun r => r.status = "warning")

def rejectedCount (rs : List QAResult) : Nat :=
  rs.countP (fun r => !(r.status = "accepted") && !(r.status = "warning"))

def exitCode (run : Except String RunOutput) : Nat :=
  match run with
  | Except.error _ => 1
  | Except.ok out => if 0 < rejectedCount out.results then 1 else 0

/-- The oracle calls a run issued (none when the run aborted). -/
def callsOf (run : Except String RunOutput) : List OracleCall :=
  match run with
  | Except.error _ => []
  | Except.ok out => out.calls

/- ## Helper lemmas -/

/-- The status fold, characterised for an arbitrary accumulator. -/
theorem foldl_stepStatus_char (ss : List String) : ∀ acc : String,
    ss.foldl stepStatus acc =
      if ss.any (fun x => x = "rejected") then "rejected"
      else if ss.any (fun x => x = "warning") then
        (if acc = "rejected" then "rejected" else "warning")
      else acc := by
  induction ss with
  | nil => intro acc; simp
  | cons s rest ih =>
    intro acc
    simp only [List.foldl_cons, List.any_cons, ih]
    by_cases hr : s = "rejected"
    · subst hr; simp [stepStatus]
    · by_cases hw : s = "warning"
      · subst hw
        by_cases ha : acc = "rejected" <;> simp [stepStatus, hr, ha]
      · simp [stepStatus, hr, hw]

theorem overallStatus_char (ss : List String) :
    overallStatus ss =
      if ss.any (fun x => x = "rejected") then "rejected"
      else if ss.any (fun x => x = "warning") then "warning"
      else "accepted" := by
  rw [overallStatus, foldl_stepStatus_char]
  simp

theorem overallStatus_mem (ss : List String) :
    overallStatus ss = "accepted" ∨ overallStatus ss = "warning" ∨
      overallStatus ss = "rejected" := by
  rw [overallStatus_char]
  split
  · exact Or.inr (Or.inr rfl)
  · split
    · exact Or.inr (Or.inl rfl)
    · exact Or.inl rfl

theorem sevRank_le_two (a : String) : sevRank a ≤ 2 := by
  unfold sevRank
  split
  · omega
  · split <;> omega

theorem sevRank_stepStatus (a s : String) : sevRank a ≤ sevRank (stepStatus a s) := by
  by_cases hr : s = "rejected"
  · have h2 : stepStatus a s = "rejected" := by simp [stepStatus, hr]
    rw [h2, show sevRank "rejected" = 2 from by decide]
    exact sevRank_le_two a
  · by_cases hw : s = "warning"
    · by_cases ha : a = "rejected"
      · have h2 : stepStatus a s = a := by simp [stepStatus, hr, hw, ha]
        rw [h2]
      · have h2 : stepStatus a s = "warning" := by simp [stepStatus, hr, hw, ha]
        rw [h2, show sevRank "warning" = 1 from by decide]
        unfold sevRank
        rw [if_neg ha]
        split <;> omega
    · have h2 : stepStatus a s = a := by simp [stepStatus, hr, hw]
      rw [h2]

/- ## Claims -/

/-- Claim C1 (code bug, evaluated at the failing input): the source intends
`**` to be separator-crossing, but the replacement chain rewrites the `*` of
the already-substituted `.*`, so `"quality/**"` compiles to the regex source
`quality/.[^/]*` and the path `"quality/a/b.ts"` is NOT ignored, contradicting
the claim.  The other parts of the claim hold: `"quality/foo.ts"` is ignored,
`"src/quality.ts"` is not (anchored match), `*` stays inside one path segment,
and `.` is literal. -/
theorem C1_ignore_matcher_eval :
    shouldIgnore ["quality/**"] "quality/foo.ts" = true ∧
    shouldIgnore ["quality/**"] "quality/a/b.ts" = false ∧
    shouldIgnore ["quality/**"] "src/quality.ts" = false ∧
    globRegexSrc "quality/**".toList = "quality/.[^/]*".toList ∧
    testPattern "*.ts" "a.ts" = true ∧
    testPattern "*.ts" "a/b.ts" = false ∧
    testPattern "qa.json" "qa.json" = true ∧
    testPattern "qa.json" "qaxjson" = false := by
  decide

/-- Claim C2 counterexample: a user override that supplies its own
`ignoreFiles` list replaces the base ignores entirely; neither `"quality/**"`
nor `"qa.json"` is among the applied patterns. -/
theorem C2_counterexample :
    (loadConfig (some { ignoreFiles := some ["src/**"] })).ignoreFiles = ["src/**"] ∧
    "quality/**" ∉ (loadConfig (some { ignoreFiles := some ["src/**"] })).ignoreFiles ∧
    "qa.json" ∉ (loadConfig (some { ignoreFiles := some ["src/**"] })).ignoreFiles := by
  decide

/-- Claim C2 (amended): the base ignores `["quality/**", "qa.json"]` are the
default value of `ignoreFiles` and apply exactly when the user file omits that
key (or is absent); a user-supplied list replaces them wholesale. -/
theorem C2_amended :
    (∀ u : UserConfig, u.ignoreFiles = none →
      (loadConfig (some u)).ignoreFiles = ["quality/**", "qa.json"]) ∧
    (loadConfig none).ignoreFiles = ["quality/**", "qa.json"] ∧
    (∀ (u : UserConfig) (l : List String), u.ignoreFiles = some l →
      (loadConfig (some u)).ignoreFiles = l) := by
  refine ⟨?_, rfl, ?_⟩
  · intro u h; simp [loadConfig, h, defaultQAConfig]
  · intro u l h; simp [loadConfig, h]

theorem C2_amended_witness :
    (loadConfig (some { contextLines := some 10 })).ignoreFiles = ["quality/**", "qa.json"] ∧
    (loadConfig (some { ignoreFiles := some ["src/**"] })).ignoreFiles = ["src/**"] :=
  ⟨C2_amended.1 { contextLines := some 10 } rfl,
   C2_amended.2.2 { ignoreFiles := some ["src/**"] } ["src/**"] rfl⟩

/-- Claim C3: the per-file verdict equals `rejected` if any adjudicated status
is `rejected`, else `warning` if any is `warning`, else `accepted`; and the
fold is monotone: appending one more status never lowers severity. -/
theorem C3_verdict_fold :
    (∀ statuses : List String,
      overallStatus statuses =
        (if statuses.any (fun x => x = "rejected") then "rejected"
         else if statuses.any (fun x => x = "warning") then "warning"
         else "accepted")) ∧
    (∀ (statuses : List String) (s : String),
      sevRank (overallStatus statuses) ≤ sevRank (overallStatus (statuses ++ [s]))) := by
  constructor
  · exact overallStatus_char
  · intro statuses s
    have h : overallStatus (statuses ++ [s]) = stepStatus (overallStatus statuses) s := by
      simp [overallStatus, List.foldl_append]
    rw [h]
    exact sevRank_stepStatus _ s

/-- Claim C6 counterexample: the merge performs no validation, so a user
override with `contextLines = -5` yields a merged config violating the
invariant. -/
theorem C6_counterexample :
    ¬ configInvariant (loadConfig (some { contextLines := some (-5) })) := by
  decide

/-- Claim C6 (amended): the default configuration satisfies the invariant, and
a merged configuration satisfies it exactly when the values the user override
supplies do — the merge passes user values through unvalidated in both
directions, so a good override yields a good config and a bad supplied value
(negative count or empty pattern) lands in the merged config verbatim. -/
theorem C6_amended :
    configInvariant defaultQAConfig ∧
    ∀ u : UserConfig,
      configInvariant (loadConfig (some u)) ↔
        ((∀ n, u.contextLines = some n → 0 < n) ∧
         (∀ n, u.maxDiffLines = some n → 0 < n) ∧
         (∀ n, u.maxSnippetMatches = some n → 0 < n) ∧
         (∀ n, u.maxDiffsPerRun = some n → 0 < n) ∧
         (∀ l, u.ignoreFiles = some l → ∀ p ∈ l, p ≠ "")) := by
  refine ⟨by decide, ?_⟩
  intro u
  constructor
  · intro hinv
    refine ⟨?_, ?_, ?_, ?_, ?_⟩
    · intro n hn
      simpa [loadConfig, hn] using hinv.1
    · intro n hn
      simpa [loadConfig, hn] using hinv.2.1
    · intro n hn
      simpa [loadConfig, hn] using hinv.2.2.1
    · intro n hn
      simpa [loadConfig, hn] using hinv.2.2.2.1
    · intro l hl p hp
      exact hinv.2.2.2.2 p (by simp [loadConfig, hl, hp])
  · rintro ⟨h1, h2, h3, h4, h5⟩
    refine ⟨?_, ?_, ?_, ?_, ?_⟩
    · cases hc : u.contextLines with
      | none => simp [loadConfig, hc, defaultQAConfig]
      | some n => simpa [loadConfig, hc] using h1 n hc
    · cases hc : u.maxDiffLines with
      | none => simp [loadConfig, hc, defaultQAConfig]
      | some n => simpa [loadConfig, hc] using h2 n hc
    · cases hc : u.maxSnippetMatches with
      | none => simp [loadConfig, hc, defaultQAConfig]
      | some n => simpa [loadConfig, hc] using h3 n hc
    · cases hc : u.maxDiffsPerRun with
      | none => simp [loadConfig, hc, defaultQAConfig]
      | some n => simpa [loadConfig, hc] using h4 n hc
    · cases hc : u.ignoreFiles with
      | none =>
        intro p hp
        simp [loadConfig, hc, defaultQAConfig] at hp
        rcases hp with h | h <;> subst h <;> decide
      | some l =>
        intro p hp
        refine h5 l hc p ?_
        simpa [loadConfig, hc] using hp

theorem C6_amended_witness :
    configInvariant (loadConfig (some {})) ∧
    ¬ ((∀ n, ({ contextLines := some (-5) } : UserConfig).contextLines = some n → 0 < n) ∧
       (∀ n, ({ contextLines := some (-5) } : UserConfig).maxDiffLines = some n → 0 < n) ∧
       (∀ n, ({ contextLines := some (-5) } : UserConfig).maxSnippetMatches = some n → 0 < n) ∧
       (∀ n, ({ contextLines := some (-5) } : UserConfig).maxDiffsPerRun = some n → 0 < n) ∧
       (∀ l, ({ contextLines := some (-5) } : UserConfig).ignoreFiles = some l →
          ∀ p ∈ l, p ≠ "")) :=
  ⟨(C6_amended.2 {}).mpr ⟨by simp, by simp, by simp, by simp, by simp⟩,
   fun hgood => absurd ((C6_amended.2 { contextLines := some (-5) }).mpr hgood)
     (by decide)⟩

/-- When the match loop completes without throwing, its adjudication calls are
exactly the non-`null` elements whose snippet name resolves in the corpus and
whose score does not fail the (coerced) below-80 test, in ranker order. -/
theorem processMatches_calls (adjudicate : Snippet → Analysis) (snippets : List Snippet) :
    ∀ (ms : List (Option SnippetMatch)) (out : ProcOut),
      processMatches adjudicate snippets ms = Except.ok out →
      out.calls = (ms.filterMap id).filter (fun m =>
        (findSnippet snippets m.snippetName).isSome && !(scoreBelow80 m.relevanceScore)) := by
  intro ms
  induction ms with
  | nil =>
    intro out h
    cases h
    rfl
  | cons e rest ih =>
    intro out h
    cases e with
    | none =>
      rw [processMatches] at h
      split at h
      · rw [ih out h]
        simp [List.filterMap_cons]
      · cases h
    | some m =>
      rw [processMatches] at h
      cases hf : findSnippet snippets m.snippetName with
      | none =>
        rw [hf] at h
        have h' : processMatches adjudicate snippets rest = Except.ok out := h
        rw [ih out h']
        simp [List.filterMap_cons, List.filter_cons, hf]
      | some snip =>
        rw [hf] at h
        have h' : (if scoreBelow80 m.relevanceScore then
              processMatches adjudicate snippets rest
            else
              match processMatches adjudicate snippets rest with
              | Except.error e2 => Except.error e2
              | Except.ok out2 =>
                Except.ok ⟨(snip.name, (adjudicate snip).commentary) :: out2.results,
                  (adjudicate snip).status :: out2.statuses, m :: out2.calls⟩)
            = Except.ok out := h
        by_cases hq : scoreBelow80 m.relevanceScore
        · rw [if_pos hq] at h'
          rw [ih out h']
          simp [List.filterMap_cons, List.filter_cons, hf, hq]
        · rw [if_neg hq] at h'
          cases hrec : processMatches adjudicate snippets rest with
          | error e2 => rw [hrec] at h'; cases h'
          | ok out2 =>
            rw [hrec] at h'
            injection h' with h2
            subst h2
            rw [List.filterMap_cons]
            simp only [Option.some.injEq, id]
            rw [List.filter_cons]
            simp only [hf, Option.isSome_some, Bool.true_and, hq, Bool.not_false, if_pos]
            rw [← ih out2 hrec]

/-- Claim C4: for a ranked entry whose snippet name resolves in the corpus and
whose relevance score is a number q (the claim's domain), the adjudication
oracle is invoked for it exactly when q is at least 80; any numeric score
below 80 is skipped before the call. -/
theorem C4_threshold (adjudicate : Snippet → Analysis) (snippets : List Snippet)
    (ms : List (Option SnippetMatch)) (m : SnippetMatch) (q : Rat) (out : ProcOut)
    (hm : some m ∈ ms)
    (hres : (findSnippet snippets m.snippetName).isSome = true)
    (hq : m.relevanceScore = some (Json.num q))
    (hok : processMatches adjudicate snippets ms = Except.ok out) :
    m ∈ out.calls ↔ 80 ≤ q := by
  rw [processMatches_calls adjudicate snippets ms out hok, List.mem_filter]
  have hscore : scoreBelow80 m.relevanceScore = decide (q < 80) := by
    rw [hq]; rfl
  constructor
  · rintro ⟨-, h⟩
    rw [hscore] at h
    simp only [hres, Bool.true_and, Bool.not_eq_true', decide_eq_false_iff_not] at h
    exact not_lt.mp h
  · intro h
    refine ⟨List.mem_filterMap.mpr ⟨some m, hm, rfl⟩, ?_⟩
    rw [hscore]
    simp [hres, not_lt.mpr h]

theorem C4_threshold_witness :
    ((⟨some "a", some (Json.num 90)⟩ : SnippetMatch) ∈
      (⟨[("a", "c")], ["accepted"],
        [⟨some "a", some (Json.num 90)⟩]⟩ : ProcOut).calls) ∧
    ¬ ((⟨some "a", some (Json.num 79)⟩ : SnippetMatch) ∈
      (⟨[], [], []⟩ : ProcOut).calls) := by
  constructor
  · exact (C4_threshold (fun _ => ⟨"c", "accepted"⟩) [⟨"a", "ca"⟩]
      [some ⟨some "a", some (Json.num 90)⟩] ⟨some "a", some (Json.num 90)⟩ 90
      ⟨[("a", "c")], ["accepted"], [⟨some "a", some (Json.num 90)⟩]⟩
      (List.mem_singleton.mpr rfl) rfl rfl rfl).mpr (by norm_num)
  · intro hmem
    have h80 := (C4_threshold (fun _ => ⟨"c", "accepted"⟩) [⟨"a", "ca"⟩]
      [some ⟨some "a", some (Json.num 79)⟩] ⟨some "a", some (Json.num 79)⟩ 79
      ⟨[], [], []⟩
      (List.mem_singleton.mpr rfl) rfl rfl rfl).mp hmem
    exact absurd h80 (by norm_num)

/-- Claim C5 counterexample: with `maxDiffsPerRun = 1` and `maxSnippetMatches
= 1` (the latter appears only in the prompt text and never constrains the
code), a ranking reply holding two resolvable matches at score 90 produces
three oracle calls, exceeding the claimed bound `1 * (1 + 1) = 2`. -/
theorem C5_counterexample :
    (callsOf (processRun (some "k")
      (fun _ => some "[\x7b\"snippetName\": \"a\", \"relevanceScore\": 90\x7d, \x7b\"snippetName\": \"b\", \"relevanceScore\": 90\x7d]")
      (fun _ _ => some "\x7b\"commentary\": \"ok\", \"status\": \"accepted\"\x7d")
      [⟨"a", "ca"⟩, ⟨"b", "cb"⟩] [⟨"f.ts", "+x"⟩] 500 1)).length = 3 ∧
    1 * (1 + 1) < 3 := by
  constructor
  · decide
  · decide

theorem processMatches_calls_length (adjudicate : Snippet → Analysis)
    (snippets : List Snippet) (ms : List (Option SnippetMatch)) (out : ProcOut)
    (hok : processMatches adjudicate snippets ms = Except.ok out) :
    out.calls.length ≤ ms.length := by
  rw [processMatches_calls adjudicate snippets ms out hok]
  calc ((ms.filterMap id).filter _).length
      ≤ (ms.filterMap id).length := List.length_filter_le _ _
    _ ≤ ms.length := List.length_filterMap_le id ms

theorem runDiff_calls_length (rankReply : DiffInfo → Option String)
    (adjReply : DiffInfo → Snippet → Option String) (snippets : List Snippet)
    (maxDiffLines : Nat) (d : DiffInfo) (res : QAResult) (calls : List OracleCall)
    (hok : runDiff rankReply adjReply snippets maxDiffLines d
      = Except.ok (res, calls)) :
    calls.length ≤ 1 + (rankedMatches rankReply maxDiffLines d).length := by
  rw [runDiff] at hok
  cases hp : processMatches
      (fun snip => analysisOfReply (adjReply (truncateDiff maxDiffLines d) snip))
      snippets (rankedMatches rankReply maxDiffLines d) with
  | error e => rw [hp] at hok; cases hok
  | ok out =>
    rw [hp] at hok
    injection hok with h2
    have hcalls : calls = OracleCall.rank (truncateDiff maxDiffLines d).file ::
        out.calls.map (fun m =>
          OracleCall.adj (truncateDiff maxDiffLines d).file (m.snippetName.getD "")) :=
      (congrArg Prod.snd h2).symm
    have hb := processMatches_calls_length _ snippets _ out hp
    rw [hcalls]
    simp only [List.length_cons, List.length_map]
    omega

theorem runDiffs_calls_length (rankReply : DiffInfo → Option String)
    (adjReply : DiffInfo → Snippet → Option String) (snippets : List Snippet)
    (maxDiffLines cap : Nat)
    (hcap : ∀ d, (rankedMatches rankReply maxDiffLines d).length ≤ cap) :
    ∀ (ds : List DiffInfo) (rs : List QAResult) (cs : List OracleCall),
      runDiffs rankReply adjReply snippets maxDiffLines ds = Except.ok (rs, cs) →
      cs.length ≤ ds.length * (1 + cap) := by
  intro ds
  induction ds with
  | nil =>
    intro rs cs h
    cases h
    simp
  | cons d rest ih =>
    intro rs cs h
    rw [runDiffs] at h
    cases h1 : runDiff rankReply adjReply snippets maxDiffLines d with
    | error e => rw [h1] at h; cases h
    | ok rc =>
      rw [h1] at h
      cases h2 : runDiffs rankReply adjReply snippets maxDiffLines rest with
      | error e => rw [h2] at h; cases h
      | ok p =>
        rw [h2] at h
        injection h with h3
        have hcs : cs = rc.2 ++ p.2 := (congrArg Prod.snd h3).symm
        have hb1 := runDiff_calls_length rankReply adjReply snippets maxDiffLines d
          rc.1 rc.2 (by rw [h1])
        have hb2 := ih p.1 p.2 (by rw [h2])
        have hc := hcap d
        subst hcs
        simp only [List.length_append, List.length_cons]
        have : (rest.length + 1) * (1 + cap) = rest.length * (1 + cap) + (1 + cap) := by
          ring
        omega

/-- Claim C5 (amended): the run issues at most one ranking call per processed
diff plus one adjudication call per element of that diff's ranking array, so
whenever every ranking reply holds at most `maxSnippetMatches` elements the
total is bounded by `maxDiffsPerRun * (1 + maxSnippetMatches)`.  The cap on
the reply length is a hypothesis because the source only requests it in the
prompt and never enforces it (see the counterexample). -/
theorem C5_amended (apiKey : Option String) (rankReply : DiffInfo → Option String)
    (adjReply : DiffInfo → Snippet → Option String) (snippets : List Snippet)
    (diffs : List DiffInfo) (maxDiffLines maxDiffsPerRun maxSnippetMatches : Nat)
    (hcap : ∀ d, (rankedMatches rankReply maxDiffLines d).length ≤ maxSnippetMatches) :
    (callsOf (processRun apiKey rankReply adjReply snippets diffs
        maxDiffLines maxDiffsPerRun)).length ≤
      maxDiffsPerRun * (1 + maxSnippetMatches) := by
  by_cases hs : snippets.isEmpty
  · simp [processRun, hs, callsOf]
  · by_cases hd : diffs.isEmpty
    · simp [processRun, hs, hd, callsOf]
    · cases apiKey with
      | none =>
        by_cases hp : (diffs.take maxDiffsPerRun).isEmpty <;>
          simp [processRun, hs, hd, hp, callsOf]
      | some k =>
        cases hr : runDiffs rankReply adjReply snippets maxDiffLines
            (diffs.take maxDiffsPerRun) with
        | error e =>
          have hco : callsOf (processRun (some k) rankReply adjReply snippets diffs
              maxDiffLines maxDiffsPerRun) = [] := by
            simp [processRun, hs, hd, hr, callsOf]
          rw [hco]
          simp
        | ok p =>
          have hco : callsOf (processRun (some k) rankReply adjReply snippets diffs
              maxDiffLines maxDiffsPerRun) = p.2 := by
            simp [processRun, hs, hd, hr, callsOf]
          rw [hco]
          have h := runDiffs_calls_length rankReply adjReply snippets maxDiffLines
            maxSnippetMatches hcap (diffs.take maxDiffsPerRun) p.1 p.2 (by rw [hr])
          have hlen : (diffs.take maxDiffsPerRun).length ≤ maxDiffsPerRun := by
            simp [List.length_take]
          calc p.2.length
              ≤ (diffs.take maxDiffsPerRun).length * (1 + maxSnippetMatches) := h
            _ ≤ maxDiffsPerRun * (1 + maxSnippetMatches) :=
                Nat.mul_le_mul_right _ hlen

theorem C5_amended_witness :
    (callsOf (processRun (some "k") (fun _ => none) (fun _ _ => none)
      [⟨"a", "ca"⟩] [⟨"f", "d"⟩] 500 3)).length ≤ 3 * (1 + 0) :=
  C5_amended (some "k") (fun _ => none) (fun _ _ => none) [⟨"a", "ca"⟩]
    [⟨"f", "d"⟩] 500 3 0
    (fun d => by simp [rankedMatches, rankedOfReply])

/- ## Lemmas on the greedy bracket span and JSON.parse -/

theorem mem_of_getLast?_eq : ∀ (l : List Char) (t : Char), l.getLast? = some t → t ∈ l
  | [], t, h => by simp at h
  | [a], t, h => by
    simp only [List.getLast?_singleton, Option.some.injEq] at h
    simp [h]
  | a :: b :: l, t, h => by
    rw [List.getLast?_cons_cons] at h
    exact List.mem_cons_of_mem a (mem_of_getLast?_eq (b :: l) t h)

theorem takeThroughLast_append (t : Char) (s2 : List Char) (ht : t ∉ s2) :
    ∀ l : List Char, l.getLast? = some t → takeThroughLast t (l ++ s2) = l := by
  intro l
  induction l with
  | nil => intro h; simp at h
  | cons c rest ih =>
    intro hl
    cases rest with
    | nil =>
      have hc : c = t := by simpa using hl
      subst hc
      simp [takeThroughLast, ht]
    | cons c2 rest2 =>
      have hl2 : (c2 :: rest2).getLast? = some t := by
        rw [List.getLast?_cons_cons] at hl; exact hl
      have hmem : t ∈ (c2 :: rest2) ++ s2 :=
        List.mem_append_left _ (mem_of_getLast?_eq _ _ hl2)
      rw [List.cons_append, takeThroughLast, if_pos hmem, ih hl2]

theorem jsGreedySpan_not_open (o t : Char) :
    ∀ (s1 r : List Char), o ∉ s1 → jsGreedySpan o t (s1 ++ r) = jsGreedySpan o t r
  | [], _, _ => rfl
  | c :: rest, r, h1 => by
    have hc : ¬ c = o := by
      intro hh; exact h1 (hh ▸ List.mem_cons_self _ _)
    simp only [List.cons_append, jsGreedySpan]
    rw [if_neg (by simp [hc])]
    exact jsGreedySpan_not_open o t rest r (fun hm => h1 (List.mem_cons_of_mem c hm))

theorem jsGreedySpan_exact (o t : Char) (mid s2 : List Char)
    (h2 : t ∉ s2) (hlast : mid.getLast? = some t) :
    jsGreedySpan o t ((o :: mid) ++ s2) = some (o :: mid) := by
  have hmem : t ∈ mid ++ s2 :=
    List.mem_append_left _ (mem_of_getLast?_eq _ _ hlast)
  rw [List.cons_append, jsGreedySpan, if_pos ⟨rfl, hmem⟩,
    takeThroughLast_append t s2 h2 mid hlast]

theorem jsGreedySpan_full (o t : Char) (s1 mid s2 : List Char)
    (h1 : o ∉ s1) (h2 : t ∉ s2) (hlast : mid.getLast? = some t) :
    jsGreedySpan o t (s1 ++ (o :: mid) ++ s2) = some (o :: mid) := by
  rw [List.append_assoc, jsGreedySpan_not_open o t s1 _ h1]
  exact jsGreedySpan_exact o t mid s2 h2 hlast

theorem takeThroughLast_is_front (t : Char) :
    ∀ l : List Char, ∃ l2, takeThroughLast t l ++ l2 = l
  | [] => ⟨[], rfl⟩
  | c :: rest => by
    by_cases hm : t ∈ rest
    · obtain ⟨l2, hl2⟩ := takeThroughLast_is_front t rest
      exact ⟨l2, by simp [takeThroughLast, hm, hl2]⟩
    · by_cases hc : c = t
      · exact ⟨rest, by simp [takeThroughLast, hm, hc]⟩
      · exact ⟨c :: rest, by simp [takeThroughLast, hm, hc]⟩

/-- A successful greedy span starts with the opening char and is a contiguous
piece of the scanned text. -/
theorem jsGreedySpan_split (o t : Char) : ∀ (s span : List Char),
    jsGreedySpan o t s = some span →
    (∃ r, span = o :: r) ∧ ∃ l1 l2, s = l1 ++ span ++ l2
  | [], span, h => by simp [jsGreedySpan] at h
  | c :: rest, span, h => by
    by_cases hc : c = o ∧ t ∈ rest
    · rw [jsGreedySpan, if_pos hc] at h
      obtain rfl : c :: takeThroughLast t rest = span := by
        simpa using h
      obtain ⟨l2, hl2⟩ := takeThroughLast_is_front t rest
      exact ⟨⟨takeThroughLast t rest, by rw [hc.1]⟩, [], l2, by simp [hl2]⟩
    · rw [jsGreedySpan, if_neg hc] at h
      obtain ⟨hhead, l1, l2, hsplit⟩ := jsGreedySpan_split o t rest span h
      exact ⟨hhead, c :: l1, l2, by simp [hsplit]⟩

theorem parseValue_open_bracket (fuel : Nat) (r : List Char) (out : Json × List Char)
    (h : parseValue (fuel + 1) ('[' :: r) = some out) : ∃ xs, out.1 = Json.arr xs := by
  rw [parseValue, if_neg (by decide), if_pos rfl] at h
  split at h
  · exact ⟨[], by rw [← Option.some.inj h]⟩
  · obtain ⟨p, _, hout⟩ := Option.map_eq_some'.mp h
    exact ⟨p.1, by rw [← hout]⟩

theorem parseValue_open_brace (fuel : Nat) (r : List Char) (out : Json × List Char)
    (h : parseValue (fuel + 1) ('{' :: r) = some out) : ∃ kvs, out.1 = Json.obj kvs := by
  rw [parseValue, if_neg (by decide), if_neg (by decide), if_pos rfl] at h
  split at h
  · exact ⟨[], by rw [← Option.some.inj h]⟩
  · obtain ⟨p, _, hout⟩ := Option.map_eq_some'.mp h
    exact ⟨p.1, by rw [← hout]⟩

theorem jsonParse_open_bracket (r : List Char) (j : Json)
    (h : jsonParse ('[' :: r) = some j) : ∃ xs, j = Json.arr xs := by
  unfold jsonParse at h
  have hw : skipWs ('[' :: r) = '[' :: r := by simp [skipWs, jsonWs]
  rw [hw] at h
  cases hp : parseValue (2 * ('[' :: r).length + 2) ('[' :: r) with
  | none => rw [hp] at h; simp at h
  | some out =>
    rw [hp] at h
    obtain ⟨xs, hxs⟩ := parseValue_open_bracket (2 * ('[' :: r).length + 1) r out hp
    simp only [] at h
    split at h
    · exact ⟨xs, by rw [← Option.some.inj h, hxs]⟩
    · simp at h

theorem jsonParse_open_brace (r : List Char) (j : Json)
    (h : jsonParse ('{' :: r) = some j) : ∃ kvs, j = Json.obj kvs := by
  unfold jsonParse at h
  have hw : skipWs ('{' :: r) = '{' :: r := by simp [skipWs, jsonWs]
  rw [hw] at h
  cases hp : parseValue (2 * ('{' :: r).length + 2) ('{' :: r) with
  | none => rw [hp] at h; simp at h
  | some out =>
    rw [hp] at h
    obtain ⟨kvs, hkvs⟩ := parseValue_open_brace (2 * ('{' :: r).length + 1) r out hp
    simp only [] at h
    split at h
    · exact ⟨kvs, by rw [← Option.some.inj h, hkvs]⟩
    · simp at h

/-- `content` holds a parseable JSON array as a contiguous substring. -/
def isParseableArray (s : List Char) : Bool :=
  match jsonParse s with
  | some (Json.arr _) => true
  | _ => false

def containsParseableArray (s : List Char) : Bool :=
  s.tails.any (fun t2 => t2.inits.any (fun u => isParseableArray u))

/-- `content` holds a parseable JSON object as a contiguous substring. -/
def isParseableObj (s : List Char) : Bool :=
  match jsonParse s with
  | some (Json.obj _) => true
  | _ => false

def containsParseableObj (s : List Char) : Bool :=
  s.tails.any (fun t2 => t2.inits.any (fun u => isParseableObj u))

theorem containsParseableArray_of_piece (s u l1 l2 : List Char)
    (hsplit : s = l1 ++ u ++ l2) (hp : isParseableArray u = true) :
    containsParseableArray s = true := by
  rw [containsParseableArray, List.any_eq_true]
  refine ⟨u ++ l2, ?_, ?_⟩
  · rw [List.mem_tails]
    exact ⟨l1, by rw [hsplit]; exact (List.append_assoc l1 u l2).symm⟩
  · rw [List.any_eq_true]
    exact ⟨u, (List.mem_inits u (u ++ l2)).mpr ⟨l2, rfl⟩, hp⟩

theorem containsParseableObj_of_piece (s u l1 l2 : List Char)
    (hsplit : s = l1 ++ u ++ l2) (hp : isParseableObj u = true) :
    containsParseableObj s = true := by
  rw [containsParseableObj, List.any_eq_true]
  refine ⟨u ++ l2, ?_, ?_⟩
  · rw [List.mem_tails]
    exact ⟨l1, by rw [hsplit]; exact (List.append_assoc l1 u l2).symm⟩
  · rw [List.any_eq_true]
    exact ⟨u, (List.mem_inits u (u ++ l2)).mpr ⟨l2, rfl⟩, hp⟩

theorem extractMatches_no_array (content : List Char)
    (h : containsParseableArray content = false) : extractMatches content = [] := by
  cases hsp : jsGreedySpan '[' ']' content with
  | none => unfold extractMatches; simp only [hsp]
  | some span =>
    obtain ⟨⟨r, rfl⟩, l1, l2, hsplit⟩ := jsGreedySpan_split _ _ _ _ hsp
    cases hp : jsonParse ('[' :: r) with
    | none => unfold extractMatches; simp only [hsp, hp]
    | some j =>
      exfalso
      obtain ⟨xs, hxs⟩ := jsonParse_open_bracket r j hp
      subst hxs
      have hpa : isParseableArray ('[' :: r) = true := by
        unfold isParseableArray
        rw [hp]
      rw [containsParseableArray_of_piece content ('[' :: r) l1 l2 hsplit hpa] at h
      cases h

theorem extractAnalysis_no_obj (content : List Char)
    (h : containsParseableObj content = false) :
    extractAnalysis content = ⟨"Unable to parse analysis", "warning"⟩ ∨
    extractAnalysis content = ⟨"Error during analysis", "warning"⟩ := by
  cases hsp : jsGreedySpan '{' '}' content with
  | none => left; unfold extractAnalysis; simp only [hsp]
  | some span =>
    obtain ⟨⟨r, rfl⟩, l1, l2, hsplit⟩ := jsGreedySpan_split _ _ _ _ hsp
    cases hp : jsonParse ('{' :: r) with
    | none => right; unfold extractAnalysis; simp only [hsp, hp]
    | some j =>
      exfalso
      obtain ⟨kvs, hkvs⟩ := jsonParse_open_brace r j hp
      subst hkvs
      have hpo : isParseableObj ('{' :: r) = true := by
        unfold isParseableObj
        rw [hp]
      rw [containsParseableObj_of_piece content ('{' :: r) l1 l2 hsplit hpo] at h
      cases h

/-- Claim C7 counterexample: a reply holding two disjoint well-formed array
literals yields the empty match list, not the parse of the first array — the
greedy regex spans from the first `[` to the last `]`, and that span is not
valid JSON. -/
theorem C7_counterexample :
    extractMatches "[\x7b\"snippetName\": \"a.js\", \"relevanceScore\": 90\x7d] and [\x7b\"snippetName\": \"b.js\", \"relevanceScore\": 10\x7d]".toList = [] ∧
    (extractMatches "[\x7b\"snippetName\": \"a.js\", \"relevanceScore\": 90\x7d]".toList).length = 1 := by
  constructor
  · rfl
  · rfl

/-- Claim C7 (amended): the ranking extraction parses the greedy span from the
first `[` through the last `]` of the reply; when the reply's only brackets
are those of a single array literal — no `[` before it, no `]` after it — the
result equals the parse of that literal standing alone, but a reply with two
disjoint array literals yields the empty list because the spanning text is
not valid JSON (see the counterexample). -/
theorem C7_amended (s1 mid s2 : List Char)
    (h1 : '[' ∉ s1) (h2 : ']' ∉ s2) (hlast : mid.getLast? = some ']') :
    extractMatches (s1 ++ ('[' :: mid) ++ s2) = extractMatches ('[' :: mid) := by
  unfold extractMatches
  rw [jsGreedySpan_full '[' ']' s1 mid s2 h1 h2 hlast]
  have h0 : jsGreedySpan '[' ']' ('[' :: mid) = some ('[' :: mid) := by
    have h3 := jsGreedySpan_exact '[' ']' mid [] (by simp) hlast
    simpa using h3
  rw [h0]

theorem C7_amended_witness :
    extractMatches ("xx ".toList ++ ('[' :: "\"ok\", 1]".toList) ++ " yy".toList) =
      extractMatches ('[' :: "\"ok\", 1]".toList) :=
  C7_amended "xx ".toList "\"ok\", 1]".toList " yy".toList
    (by decide) (by decide) (by decide)

/-- Claim C8: a ranking reply with no parseable JSON array as a substring
yields the empty match list, and an adjudication reply with no parseable JSON
object as a substring yields a `warning` verdict with a failure-describing
commentary; both are total outcomes of the extraction (the source catches the
parse error), so neither aborts the run. -/
theorem C8_degraded_oracle :
    (∀ k content : String, containsParseableArray content.toList = false →
      matchSnippetsToDiff (some k) (some content) = Except.ok []) ∧
    (∀ k content : String, containsParseableObj content.toList = false →
      ∃ a, analyzeMatch (some k) (some content) = Except.ok a ∧
        a.status = "warning" ∧
        (a.commentary = "Unable to parse analysis" ∨
         a.commentary = "Error during analysis")) := by
  constructor
  · intro k content h
    simp only [matchSnippetsToDiff, rankedOfReply]
    rw [extractMatches_no_array content.toList h]
  · intro k content h
    rcases extractAnalysis_no_obj content.toList h with hcase | hcase
    · exact ⟨⟨"Unable to parse analysis", "warning"⟩,
        by simp only [analyzeMatch, analysisOfReply]; rw [hcase], rfl, Or.inl rfl⟩
    · exact ⟨⟨"Error during analysis", "warning"⟩,
        by simp only [analyzeMatch, analysisOfReply]; rw [hcase], rfl, Or.inr rfl⟩

theorem C8_degraded_oracle_witness :
    matchSnippetsToDiff (some "k") (some "chat noise") = Except.ok [] ∧
    ∃ a, analyzeMatch (some "k") (some "chat noise") = Except.ok a ∧
      a.status = "warning" ∧
      (a.commentary = "Unable to parse analysis" ∨
       a.commentary = "Error during analysis") :=
  ⟨C8_degraded_oracle.1 "k" "chat noise" (by decide),
   C8_degraded_oracle.2 "k" "chat noise" (by decide)⟩

/- ## Lemmas for the exit-code and empty-result claims -/

/-- A completed per-diff iteration's verdict is the fold of some status
sequence. -/
theorem runDiff_status (rankReply : DiffInfo → Option String)
    (adjReply : DiffInfo → Snippet → Option String) (snippets : List Snippet)
    (maxDiffLines : Nat) (d : DiffInfo) (rc : QAResult × List OracleCall)
    (h : runDiff rankReply adjReply snippets maxDiffLines d = Except.ok rc) :
    ∃ ss, rc.1.status = overallStatus ss := by
  rw [runDiff] at h
  cases hp : processMatches
      (fun snip => analysisOfReply (adjReply (truncateDiff maxDiffLines d) snip))
      snippets (rankedMatches rankReply maxDiffLines d) with
  | error e => rw [hp] at h; cases h
  | ok out =>
    rw [hp] at h
    injection h with h2
    exact ⟨out.statuses, by rw [← h2]⟩

/-- Every per-file verdict a completed run produces is one of the three
tokens. -/
theorem runDiffs_results_status (rankReply : DiffInfo → Option String)
    (adjReply : DiffInfo → Snippet → Option String) (snippets : List Snippet)
    (maxDiffLines : Nat) :
    ∀ (ds : List DiffInfo) (rs : List QAResult) (cs : List OracleCall),
      runDiffs rankReply adjReply snippets maxDiffLines ds = Except.ok (rs, cs) →
      ∀ res ∈ rs,
        res.status = "accepted" ∨ res.status = "warning" ∨ res.status = "rejected" := by
  intro ds
  induction ds with
  | nil =>
    intro rs cs h
    cases h
    intro res hres
    simp at hres
  | cons d rest ih =>
    intro rs cs h
    rw [runDiffs] at h
    cases h1 : runDiff rankReply adjReply snippets maxDiffLines d with
    | error e => rw [h1] at h; cases h
    | ok rc =>
      rw [h1] at h
      cases h2 : runDiffs rankReply adjReply snippets maxDiffLines rest with
      | error e => rw [h2] at h; cases h
      | ok p =>
        rw [h2] at h
        injection h with h3
        have hrs : rs = rc.1 :: p.1 := (congrArg Prod.fst h3).symm
        subst hrs
        intro res hres
        rcases List.mem_cons.mp hres with h4 | h4
        · subst h4
          obtain ⟨ss, hss⟩ := runDiff_status rankReply adjReply snippets
            maxDiffLines d rc (by rw [h1])
          rw [hss]
          exact overallStatus_mem ss
        · exact ih p.1 p.2 (by rw [h2]) res h4

theorem processRun_status_wf (apiKey : Option String)
    (rankReply : DiffInfo → Option String)
    (adjReply : DiffInfo → Snippet → Option String)
    (snippets : List Snippet) (diffs : List DiffInfo)
    (maxDiffLines maxDiffsPerRun : Nat) (out : RunOutput)
    (h : processRun apiKey rankReply adjReply snippets diffs
      maxDiffLines maxDiffsPerRun = Except.ok out) :
    ∀ res ∈ out.results,
      res.status = "accepted" ∨ res.status = "warning" ∨ res.status = "rejected" := by
  unfold processRun at h
  split at h
  · cases h; intro res hres; simp at hres
  · split at h
    · cases h; intro res hres; simp at hres
    · cases apiKey with
      | none =>
        simp only [] at h
        split at h
        · cases h; intro res hres; simp at hres
        · cases h
      | some k =>
        simp only [] at h
        cases hr : runDiffs rankReply adjReply snippets maxDiffLines
            (diffs.take maxDiffsPerRun) with
        | error e => rw [hr] at h; cases h
        | ok p =>
          rw [hr] at h
          injection h with h2
          intro res hres
          rw [← h2] at hres
          exact runDiffs_results_status rankReply adjReply snippets maxDiffLines
            (diffs.take maxDiffsPerRun) p.1 p.2 (by rw [hr]) res hres

/-- On three-token results, the source's else-branch `rejected` tally counts
exactly the `rejected` verdicts. -/
theorem rejectedCount_eq_countP (rs : List QAResult)
    (h : ∀ r ∈ rs, r.status = "accepted" ∨ r.status = "warning" ∨ r.status = "rejected") :
    rejectedCount rs = rs.countP (fun r => r.status = "rejected") := by
  induction rs with
  | nil => rfl
  | cons r rest ih =>
    have hr := h r (List.mem_cons_self _ _)
    have hrest := fun x hx => h x (List.mem_cons_of_mem r hx)
    simp only [rejectedCount, List.countP_cons] at *
    rcases hr with hs | hs | hs <;> simp [hs, ih hrest]

/-- Claim C9: the run exits 0 exactly when it completes with zero rejected
files (the empty-corpus and no-changes states included), and exits 1 when a
file is rejected or when the credential is absent at the first ranking call
that needs it; if no call is needed the absent credential is harmless. -/
theorem C9_exit_codes :
    (∀ (apiKey : Option String) (rankReply : DiffInfo → Option String)
        (adjReply : DiffInfo → Snippet → Option String) (diffs : List DiffInfo)
        (maxDiffLines maxDiffsPerRun : Nat),
      exitCode (processRun apiKey rankReply adjReply [] diffs
        maxDiffLines maxDiffsPerRun) = 0) ∧
    (∀ (apiKey : Option String) (rankReply : DiffInfo → Option String)
        (adjReply : DiffInfo → Snippet → Option String) (snippets : List Snippet)
        (maxDiffLines maxDiffsPerRun : Nat),
      exitCode (processRun apiKey rankReply adjReply snippets []
        maxDiffLines maxDiffsPerRun) = 0) ∧
    (∀ (rankReply : DiffInfo → Option String)
        (adjReply : DiffInfo → Snippet → Option String) (snippets : List Snippet)
        (diffs : List DiffInfo) (maxDiffLines maxDiffsPerRun : Nat),
      snippets ≠ [] → diffs ≠ [] → 0 < maxDiffsPerRun →
      processRun none rankReply adjReply snippets diffs maxDiffLines maxDiffsPerRun
          = Except.error "OPENAI_API_KEY environment variable not set" ∧
        exitCode (processRun none rankReply adjReply snippets diffs
          maxDiffLines maxDiffsPerRun) = 1) ∧
    (∀ (apiKey : Option String) (rankReply : DiffInfo → Option String)
        (adjReply : DiffInfo → Snippet → Option String) (snippets : List Snippet)
        (diffs : List DiffInfo) (maxDiffLines maxDiffsPerRun : Nat),
      exitCode (processRun apiKey rankReply adjReply snippets diffs
          maxDiffLines maxDiffsPerRun) = 0 ↔
        ∃ out, processRun apiKey rankReply adjReply snippets diffs
            maxDiffLines maxDiffsPerRun = Except.ok out ∧
          out.results.countP (fun r => r.status = "rejected") = 0) := by
  refine ⟨?_, ?_, ?_, ?_⟩
  · intro apiKey rankReply adjReply diffs mdl mdpr
    simp [processRun, exitCode, rejectedCount]
  · intro apiKey rankReply adjReply snippets mdl mdpr
    by_cases hs : snippets.isEmpty <;>
      simp [processRun, hs, exitCode, rejectedCount]
  · intro rankReply adjReply snippets diffs mdl mdpr hs hd hm
    have hrun : processRun none rankReply adjReply snippets diffs mdl mdpr
        = Except.error "OPENAI_API_KEY environment variable not set" := by
      have hs' : snippets.isEmpty = false := by
        cases snippets with
        | nil => exact absurd rfl hs
        | cons a l => rfl
      have hd' : diffs.isEmpty = false := by
        cases diffs with
        | nil => exact absurd rfl hd
        | cons a l => rfl
      have htake : (diffs.take mdpr).isEmpty = false := by
        cases diffs with
        | nil => exact absurd rfl hd
        | cons a l =>
          cases mdpr with
          | zero => omega
          | succ n => rfl
      simp [processRun, hs', hd', htake]
    exact ⟨hrun, by rw [hrun]; rfl⟩
  · intro apiKey rankReply adjReply snippets diffs mdl mdpr
    cases hrun : processRun apiKey rankReply adjReply snippets diffs mdl mdpr with
    | error e =>
      simp only [exitCode]
      constructor
      · intro h; cases h
      · rintro ⟨out, hout, -⟩; cases hout
    | ok out =>
      have hwf := processRun_status_wf apiKey rankReply adjReply snippets diffs
        mdl mdpr out hrun
      have hcnt := rejectedCount_eq_countP out.results hwf
      simp only [exitCode]
      constructor
      · intro h
        refine ⟨out, rfl, ?_⟩
        rw [← hcnt]
        by_contra hne
        have hpos : 0 < rejectedCount out.results := Nat.pos_of_ne_zero hne
        rw [if_pos hpos] at h
        cases h
      · rintro ⟨out2, hout2, hzero⟩
        obtain rfl : out = out2 := by
          injection hout2
        rw [if_neg]
        rw [← hcnt] at hzero
        omega

theorem C9_exit_codes_witness :
    processRun none (fun _ => none) (fun _ _ => none)
        [⟨"a", "ca"⟩] [⟨"f", "d"⟩] 500 3
      = Except.error "OPENAI_API_KEY environment variable not set" :=
  (C9_exit_codes.2.2.1 (fun _ => none) (fun _ _ => none)
    [⟨"a", "ca"⟩] [⟨"f", "d"⟩] 500 3 (by decide) (by decide) (by decide)).1

/-- If every ranked element is a non-`null` entry that is skipped — its name
unresolvable or its (coerced) score below 80 — the loop adjudicates nothing
and completes. -/
theorem processMatches_skip_all (adjudicate : Snippet → Analysis)
    (snippets : List Snippet) :
    ∀ ms : List (Option SnippetMatch),
      (∀ e ∈ ms, ∃ m, e = some m ∧
        (findSnippet snippets m.snippetName = none ∨
         scoreBelow80 m.relevanceScore = true)) →
      processMatches adjudicate snippets ms = Except.ok ⟨[], [], []⟩ := by
  intro ms
  induction ms with
  | nil => intro _; rfl
  | cons e rest ih =>
    intro h
    obtain ⟨m, rfl, hm⟩ := h e (List.mem_cons_self _ _)
    have hrest := ih (fun x hx => h x (List.mem_cons_of_mem _ hx))
    rw [processMatches]
    rcases hm with hf | hq
    · rw [hf]
      exact hrest
    · cases hf : findSnippet snippets m.snippetName with
      | none => exact hrest
      | some snip => simp [hq, hrest]

theorem truncateDiff_file (maxDiffLines : Nat) (d : DiffInfo) :
    (truncateDiff maxDiffLines d).file = d.file := by
  by_cases hl : (d.diff.splitOn "\n").length > maxDiffLines <;>
    simp [truncateDiff, hl]

/-- Claim C10: a processed diff for which no adjudication call happens —
because the ranker returned nothing, every match scored below 80, or no match
resolved in the corpus — yields the FileResult `⟨file, accepted, []⟩` with only
its ranking call, and the summary's accepted tally counts such a result. -/
theorem C10_no_adjudication (rankReply : DiffInfo → Option String)
    (adjReply : DiffInfo → Snippet → Option String) (snippets : List Snippet)
    (maxDiffLines : Nat) (d : DiffInfo)
    (h : ∀ e ∈ rankedMatches rankReply maxDiffLines d, ∃ m, e = some m ∧
      (findSnippet snippets m.snippetName = none ∨
       scoreBelow80 m.relevanceScore = true)) :
    runDiff rankReply adjReply snippets maxDiffLines d
        = Except.ok (⟨d.file, "accepted", []⟩, [OracleCall.rank d.file]) ∧
    (∀ rs1 rs2 : List QAResult,
      acceptedCount (rs1 ++ (⟨d.file, "accepted", []⟩ : QAResult) :: rs2)
        = acceptedCount (rs1 ++ rs2) + 1) := by
  have hskip := processMatches_skip_all
    (fun snip => analysisOfReply (adjReply (truncateDiff maxDiffLines d) snip))
    snippets (rankedMatches rankReply maxDiffLines d) h
  constructor
  · rw [runDiff]
    simp only [hskip]
    rw [truncateDiff_file]
    rfl
  · intro rs1 rs2
    simp only [acceptedCount, List.countP_append, List.countP_cons]
    simp
    omega

theorem C10_no_adjudication_witness :
    runDiff (fun _ => none) (fun _ _ => none) [⟨"a", "ca"⟩] 500 ⟨"f.ts", "+x"⟩
      = Except.ok (⟨"f.ts", "accepted", []⟩, [OracleCall.rank "f.ts"]) :=
  (C10_no_adjudication (fun _ => none) (fun _ _ => none) [⟨"a", "ca"⟩] 500
    ⟨"f.ts", "+x"⟩ (by intro e he; simp [rankedMatches, rankedOfReply] at he)).1

end QAKit
